import Mathlib

/-!
Verification of the opensig-js core library: a shallow embedding of the
current `src/providers.js` (HashIterator, `_discoverSignatures`,
`Document.sign`, `_encodeData`, `_decodeData`) together with the byte/hex
utilities of `src/utils.js` and the `EncryptionKey` wrapper of
`src/crypto.js`, plus theorems about the hash-chain generator, the discovery
loop, the annotation codec and the sign rollback behaviour.

Modelling conventions: JavaScript strings are lists of UTF-16 code units
(`List Nat`); byte buffers are `List Nat` with entries below 256; fallible
code returns `Except`/`Option`; the stateful classes become explicit state
passing.  SHA-256 and AES-GCM are platform primitives (`crypto.subtle`) that
are not part of the repository's sources; SHA-256 is modelled concretely
below and AES-GCM by an idealized authenticated stream cipher, both marked
as modelled from the spec.
-/

namespace OpenSig

/-- UTF-16 code units of a Lean string literal.  All literals used in this
development are ASCII, where Lean characters and JavaScript UTF-16 code
units agree. -/
def js (s : String) : List Nat := s.data.map Char.toNat

/-! ## utils.js -/

/-- Code unit of the lowercase hex digit for `d < 16`, as produced by
JavaScript `Number.prototype.toString(16)`. -/
def hexDigitCode (d : Nat) : Nat := if d < 10 then 48 + d else 87 + d

/-- Two lowercase hex digits of a byte: `x.toString(16).padStart(2, '0')` in
`buf2hex`, which for `b < 256` is exactly the fixed-width two-digit form. -/
def byteToHex (b : Nat) : List Nat := [hexDigitCode (b / 16 % 16), hexDigitCode (b % 16)]

/-- utils.js `buf2hex(buffer, prefix0x=true)`: bytes to lowercase hex,
optionally prefixed by `0x`. -/
def buf2hex (prefix0x : Bool) (buf : List Nat) : List Nat :=
  (if prefix0x then js "0x" else []) ++ (buf.map byteToHex).flatten

/-- Value of a single hex digit code unit (`0-9`, `a-f`, `A-F`), `none`
otherwise. -/
def hexVal (c : Nat) : Option Nat :=
  if 48 ≤ c ∧ c ≤ 57 then some (c - 48)
  else if 97 ≤ c ∧ c ≤ 102 then some (c - 87)
  else if 65 ≤ c ∧ c ≤ 70 then some (c - 55)
  else none

/-- Accumulating loop of `parseInt(-, 16)`: consumes hex digits until the
first invalid character. -/
def parseHexLoop (acc : Nat) : List Nat → Nat
  | [] => acc
  | c :: rest =>
    match hexVal c with
    | none => acc
    | some v => parseHexLoop (16 * acc + v) rest

/-- JavaScript `parseInt(s, 16)` on a plain hex string: parses the longest
valid prefix, `none` when the result is NaN (empty input or leading invalid
character).  (`parseInt` would also accept a leading `0x`; the chunks this
model is applied to are slices of hex payloads that cannot contain `x`,
except for a lone `0x` pair where both semantics yield 0 after the NaN
coercion.) -/
def jsParseIntHex : List Nat → Option Nat
  | [] => none
  | c :: rest => (hexVal c).map (fun v => parseHexLoop v rest)

/-- JavaScript `str.replace('0x', '')`: removes the first occurrence of the
substring `0x` (code units 48, 120). -/
def removeFirst0x : List Nat → List Nat
  | [] => []
  | [c] => [c]
  | a :: b :: rest => if a = 48 ∧ b = 120 then rest else a :: removeFirst0x (b :: rest)

/-- JavaScript `str.match(/.{1,2}/g)`: chunks of two characters, a final
chunk possibly of one. -/
def hexPairs : List Nat → List (List Nat)
  | a :: b :: rest => [a, b] :: hexPairs rest
  | [a] => [[a]]
  | [] => []

/-- utils.js `hexToBuf`.  `Uint8Array.from` coerces NaN to 0.  (On the empty
string JavaScript throws because `''.match` is null; none of the call paths
modelled here reaches `hexToBuf` with an empty string in a way a claim
depends on.) -/
def hexToBuf (hex : List Nat) : List Nat :=
  (hexPairs (removeFirst0x hex)).map (fun p => (jsParseIntHex p).getD 0)

/-- Four lowercase hex digits of a UTF-16 code unit: utils.js computes
`("000" + u.toString(16)).slice(-4)`, which for `u < 0x10000` is exactly the
fixed-width four-digit form. -/
def unit4hex (u : Nat) : List Nat :=
  [hexDigitCode (u / 4096 % 16), hexDigitCode (u / 256 % 16),
   hexDigitCode (u / 16 % 16), hexDigitCode (u % 16)]

/-- utils.js `unicodeStrToHex`: each UTF-16 code unit becomes four hex
digits. -/
def unicodeStrToHex (s : List Nat) : List Nat := (s.map unit4hex).flatten

/-- JavaScript `str.match(/.{1,4}/g)`: chunks of four characters, a final
chunk possibly shorter. -/
def hexQuads : List Nat → List (List Nat)
  | a :: b :: c :: d :: rest => [a, b, c, d] :: hexQuads rest
  | [] => []
  | l => [l]

/-- utils.js `unicodeHexToStr`: strip a first `0x`, split into four-digit
chunks, `String.fromCharCode(parseInt(chunk, 16))` (NaN coerces to 0; every
chunk value is below 0x10000 so `ToUint16` is the identity). -/
def unicodeHexToStr (s : List Nat) : List Nat :=
  (hexQuads (removeFirst0x s)).map (fun q => (jsParseIntHex q).getD 0)

/-- JavaScript `Array.prototype.slice(start, stop)` with possibly negative
or out-of-range indices. -/
def jsSlice {α : Type} (l : List α) (start stop : Int) : List α :=
  let len : Int := l.length
  let s := if start < 0 then max (len + start) 0 else min start len
  let e := if stop < 0 then max (len + stop) 0 else min stop len
  (l.take e.toNat).drop s.toNat

/-- Index scan of `Array.prototype.indexOf` starting at position `i`. -/
def jsIndexOfFrom {α : Type} [DecidableEq α] (x : α) : List α → Int → Int
  | [], _ => -1
  | a :: rest, i => if a = x then i else jsIndexOfFrom x rest (i + 1)

/-- JavaScript `Array.prototype.indexOf`: first index of `x`, else -1. -/
def jsIndexOf {α : Type} [DecidableEq α] (l : List α) (x : α) : Int :=
  jsIndexOfFrom x l 0

/-! ## SHA-256

Modelled from the spec: SHA-256 is provided by the platform
(`crypto.subtle.digest('SHA-256', data)` in `src/crypto.js`); its
implementation is not part of this repository.  The definition below is the
FIPS 180-4 algorithm over byte lists. -/

/-- Truncation to 32 bits. -/
def u32 (x : Nat) : Nat := x % 4294967296

/-- 32-bit right rotation. -/
def rotr32 (n x : Nat) : Nat := u32 ((x >>> n) ||| (x <<< (32 - n)))

def bigSigma0 (x : Nat) : Nat := rotr32 2 x ^^^ rotr32 13 x ^^^ rotr32 22 x

def bigSigma1 (x : Nat) : Nat := rotr32 6 x ^^^ rotr32 11 x ^^^ rotr32 25 x

def smallSigma0 (x : Nat) : Nat := rotr32 7 x ^^^ rotr32 18 x ^^^ (x >>> 3)

def smallSigma1 (x : Nat) : Nat := rotr32 17 x ^^^ rotr32 19 x ^^^ (x >>> 10)

/-- SHA-256 round constants. -/
def sha256K : List Nat :=
  [1116352408, 1899447441, 3049323471, 3921009573, 961987163, 1508970993,
   2453635748, 2870763221, 3624381080, 310598401, 607225278, 1426881987,
   1925078388, 2162078206, 2614888103, 3248222580, 3835390401, 4022224774,
   264347078, 604807628, 770255983, 1249150122, 1555081692, 1996064986,
   2554220882, 2821834349, 2952996808, 3210313671, 3336571891, 3584528711,
   113926993, 338241895, 666307205, 773529912, 1294757372, 1396182291,
   1695183700, 1986661051, 2177026350, 2456956037, 2730485921, 2820302411,
   3259730800, 3345764771, 3516065817, 3600352804, 4094571909, 275423344,
   430227734, 506948616, 659060556, 883997877, 958139571, 1322822218,
   1537002063, 1747873779, 1955562222, 2024104815, 2227730452, 2361852424,
   2428436474, 2756734187, 3204031479, 3329325298]

/-- SHA-256 initial hash state. -/
def sha256Init : List Nat :=
  [1779033703, 3144134277, 1013904242, 2773480762,
   1359893119, 2600822924, 528734635, 1541459225]

/-- Merkle-Damgard padding: append 0x80, zeros, and the 64-bit big-endian
bit length. -/
def padMessage (msg : List Nat) : List Nat :=
  let bitLen := msg.length * 8
  let zeros := (64 - (msg.length + 9) % 64) % 64
  msg ++ [128] ++ List.replicate zeros 0 ++
    (List.range 8).map (fun i => (bitLen >>> (8 * (7 - i))) % 256)

/-- Groups of four big-endian bytes into 32-bit words. -/
def bytesToWords : List Nat → List Nat
  | a :: b :: c :: d :: rest => (((a * 256 + b) * 256 + c) * 256 + d) :: bytesToWords rest
  | _ => []

/-- Message-schedule extension: `w` is the sliding window of the last 16
schedule words, oldest first; produces the next `k` words. -/
def scheduleRounds : Nat → List Nat → List Nat
  | 0, _ => []
  | k + 1, w =>
    let nw := u32 (smallSigma1 (w.getD 14 0) + w.getD 9 0 + smallSigma0 (w.getD 1 0) + w.getD 0 0)
    nw :: scheduleRounds k (w.tail ++ [nw])

/-- One SHA-256 round on the eight-word working state. -/
def compressWord (st : List Nat) (kw : Nat × Nat) : List Nat :=
  match st with
  | [a, b, c, d, e, f, g, h] =>
    let ch := (e &&& f) ^^^ ((4294967295 ^^^ e) &&& g)
    let maj := (a &&& b) ^^^ (a &&& c) ^^^ (b &&& c)
    let t1 := u32 (h + bigSigma1 e + ch + kw.1 + kw.2)
    let t2 := u32 (bigSigma0 a + maj)
    [u32 (t1 + t2), a, b, c, u32 (d + t1), e, f, g]
  | other => other

/-- Compression of one 16-word block into the hash state. -/
def compressBlock (st : List Nat) (block : List Nat) : List Nat :=
  let w := block ++ scheduleRounds 48 block
  let st1 := (sha256K.zip w).foldl compressWord st
  (st.zip st1).map (fun p => u32 (p.1 + p.2))

/-- Processes 16-word blocks; the fuel argument makes the recursion
structural and is always at least the number of blocks. -/
def processWordsAux : Nat → List Nat → List Nat → List Nat
  | 0, st, _ => st
  | fuel + 1, st, ws =>
    if ws.isEmpty then st
    else processWordsAux fuel (compressBlock st (ws.take 16)) (ws.drop 16)

/-- SHA-256 of a byte list, returning the 32 digest bytes. -/
def sha256 (msg : List Nat) : List Nat :=
  let ws := bytesToWords (padMessage msg)
  let final := processWordsAux ws.length sha256Init ws
  (final.map (fun w => [(w >>> 24) % 256, (w >>> 16) % 256, (w >>> 8) % 256, w % 256])).flatten

/-! ## AES-GCM model and the EncryptionKey wrapper of crypto.js

Modelled from the spec: the AES-GCM primitive itself is the platform's
(`crypto.subtle.encrypt/decrypt` with a 12-byte nonce), absent from the
repository's sources.  It is idealized here as an authenticated stream
cipher: a keystream XOR for confidentiality and a 16-byte SHA-256-derived
tag for authentication, so that decryption with the right key inverts
encryption and fails (`none`) on a corrupted ciphertext or a wrong key,
matching the failure behaviour the codec relies on. -/

/-- Keystream byte `i` of the modelled cipher. -/
def keystreamByte (key nonce : List Nat) (i : Nat) : Nat :=
  (key.getD (i % 32) 0 + nonce.getD (i % 12) 0 + i) % 256

/-- Modelled AES-GCM encryption: ciphertext followed by a 16-byte tag. -/
def gcmEncrypt (key nonce pt : List Nat) : List Nat :=
  let ct := (List.range pt.length).map (fun i => pt.getD i 0 ^^^ keystreamByte key nonce i)
  ct ++ (sha256 (key ++ nonce ++ ct)).take 16

/-- Modelled AES-GCM decryption: splits off and checks the tag, `none` on an
authentication failure (wrong key, corrupted or truncated ciphertext). -/
def gcmDecrypt (key nonce data : List Nat) : Option (List Nat) :=
  if data.length < 16 then none
  else
    let ct := data.take (data.length - 16)
    let tag := data.drop (data.length - 16)
    if tag = (sha256 (key ++ nonce ++ ct)).take 16 then
      some ((List.range ct.length).map (fun i => ct.getD i 0 ^^^ keystreamByte key nonce i))
    else none

/-- crypto.js `EncryptionKey.encrypt`: the key bytes are the 32-byte
document hash; a fresh random 12-byte nonce (a parameter here) is prepended
to the ciphertext and the whole is returned as unprefixed hex. -/
def encryptHex (key nonce : List Nat) (dataHex : List Nat) : List Nat :=
  buf2hex false (nonce ++ gcmEncrypt key nonce (hexToBuf dataHex))

/-- crypto.js `EncryptionKey.decrypt`: the first 12 bytes are the nonce, the
rest the ciphertext; resolves to unprefixed hex of the plaintext, or fails
(`none` models the rejected promise). -/
def decryptHex (key : List Nat) (dataHex : List Nat) : Option (List Nat) :=
  let buf := hexToBuf dataHex
  (gcmDecrypt key (buf.take 12) (buf.drop 12)).map (buf2hex false)

/-! ## HashIterator (providers.js, OpenSig standard v0.1 constants) -/

def SIG_DATA_VERSION : List Nat := js "00"

def SIG_DATA_ENCRYPTED_FLAG : Nat := 128

def SIG_DATA_TYPE_STRING : Nat := 0

def SIG_DATA_TYPE_BYTES : Nat := 1

def MAX_SIGS_PER_DISCOVERY_ITERATION : Nat := 10

/-- Byte encoding of the chain id used by `HashIterator.next`:
`Uint8Array.from('' + chainId)` iterates the decimal string one character at
a time and coerces each one-character string with `ToNumber`, so each
decimal digit contributes its numeric value 0..9 (for example chainId 4
contributes the single byte 0x04, not the ASCII code 0x34). -/
def chainIdBytes (chainId : Nat) : List Nat :=
  (Nat.toDigits 10 chainId).map (fun c => c.toNat - 48)

/-- State of providers.js `HashIterator`. -/
structure HashIterator where
  documentHash : List Nat
  chainId : Nat
  chainSpecificHash : Option (List Nat)
  hashes : List (List Nat)
  hashPtr : Int
deriving DecidableEq, Inhabited

/-- A freshly constructed `HashIterator`. -/
def freshIterator (documentHash : List Nat) (chainId : Nat) : HashIterator :=
  { documentHash := documentHash, chainId := chainId,
    chainSpecificHash := none, hashes := [], hashPtr := -1 }

/-- The extension loop body of `next`: starting from the current last
element, pushes `k` further chain elements. -/
def extendChain (csh : List Nat) : List Nat → Nat → List (List Nat)
  | _, 0 => []
  | lastH, k + 1 =>
    let h := sha256 (csh ++ lastH)
    h :: extendChain csh h k

/-- providers.js `HashIterator.next(n=1)`: computes the chain-specific hash
lazily on first use, seeds the materialized list with `hash(csh)`, extends
it while `i <= hashPtr + n`, then returns
`hashes.slice(hashPtr + 1, (hashPtr += n) + 1)` along with the new state. -/
def HashIterator.next (it : HashIterator) (n : Nat := 1) :
    List (List Nat) × HashIterator :=
  let csh :=
    match it.chainSpecificHash with
    | some h => h
    | none => sha256 (chainIdBytes it.chainId ++ it.documentHash)
  let hashes1 := if it.hashes.isEmpty then [sha256 csh] else it.hashes
  let k : Nat := (it.hashPtr + n + 1 - hashes1.length).toNat
  let hashes2 := hashes1 ++ extendChain csh (hashes1.getLastD []) k
  (jsSlice hashes2 (it.hashPtr + 1) (it.hashPtr + n + 1),
   { it with chainSpecificHash := some csh, hashes := hashes2, hashPtr := it.hashPtr + n })

/-- `current()`: element at the pointer, undefined when the pointer is -1 or
out of range. -/
def HashIterator.current (it : HashIterator) : Option (List Nat) :=
  if it.hashPtr ≥ 0 then it.hashes.get? it.hashPtr.toNat else none

/-- `currentIndex()`. -/
def HashIterator.currentIndex (it : HashIterator) : Int := it.hashPtr

/-- `indexAt(i)`: the materialized element at absolute index `i`, undefined
otherwise (no implicit extension). -/
def HashIterator.indexAt (it : HashIterator) (i : Int) : Option (List Nat) :=
  if i < (it.hashes.length : Int) then
    if 0 ≤ i then it.hashes.get? i.toNat else none
  else none

/-- `indexOf(hash)`: linear search over the materialized elements by
0x-prefixed hex equality. -/
def HashIterator.indexOf (it : HashIterator) (h : List Nat) : Int :=
  jsIndexOf (it.hashes.map (buf2hex true)) h

/-- `reset(n=0)`: moves the pointer only; never truncates. -/
def HashIterator.reset (it : HashIterator) (n : Int := 0) : HashIterator :=
  { it with hashPtr := n }

/-- `size()`. -/
def HashIterator.size (it : HashIterator) : Int := it.hashPtr + 1

/-- The chain-specific hash Hc of the OpenSig chain, as the code computes
it. -/
def chainSeed (documentHash : List Nat) (chainId : Nat) : List Nat :=
  sha256 (chainIdBytes chainId ++ documentHash)

/-- The deterministic signature chain: element 0 is `sha256 Hc`, element
`i+1` is `sha256 (Hc ++ element i)`. -/
def chainElem (hc : List Nat) : Nat → List Nat
  | 0 => sha256 hc
  | i + 1 => sha256 (hc ++ chainElem hc i)

/-- The first `len` chain elements. -/
def chainList (hc : List Nat) (len : Nat) : List (List Nat) :=
  (List.range len).map (chainElem hc)

/-- Iterator operations a client can perform between observations. -/
inductive IterOp where
  | next (n : Nat)
  | reset (n : Int)
deriving DecidableEq

/-- Runs a sequence of iterator operations, discarding `next`'s return
values. -/
def runOps : HashIterator → List IterOp → HashIterator
  | it, [] => it
  | it, .next n :: rest => runOps (it.next n).2 rest
  | it, .reset n :: rest => runOps (it.reset n) rest

/-! ## Signature data codec (`_encodeData` / `_decodeData`) -/

/-- The decoded signature data object built by `_decodeData` (and the
`{type: 'none'}` sentinel).  Absent JavaScript fields are `none`. -/
structure Annot where
  type : List Nat
  content : Option (List Nat)
  version : Option (List Nat)
  encrypted : Option Bool
deriving DecidableEq

/-- The `{type: 'none'}` sentinel for an empty or absent payload. -/
def noneAnnot : Annot := ⟨js "none", none, none, none⟩

/-- The switch at the end of `_decodeData`, dispatching on the content
type. -/
def decodeSwitch (version : List Nat) (encrypted : Bool) (typeNum : Nat)
    (sigData : List Nat) : Annot :=
  if typeNum = SIG_DATA_TYPE_STRING then
    ⟨js "string", some (unicodeHexToStr sigData), some version, some encrypted⟩
  else if typeNum = SIG_DATA_TYPE_BYTES then
    ⟨js "hex", some (js "0x" ++ sigData), some version, some encrypted⟩
  else
    ⟨js "invalid",
     some (js "unrecognised type: " ++ (Nat.toDigits 10 typeNum).map Char.toNat ++
       js " (version=" ++ version ++ js ")"),
     some version, some encrypted⟩

/-- providers.js `_decodeData(encData, encryptionKey)`.  Never throws: the
decryption failure is caught and replaced by an empty payload, and every
malformed input maps to a sentinel annotation object.  A NaN `typeField`
(`getD 0`) reproduces the JavaScript bitwise coercion `ToInt32(NaN) = 0`. -/
def decodeData (encData : Option (List Nat)) (key : List Nat) : Annot :=
  match encData with
  | none => noneAnnot
  | some s =>
    if s = [] ∨ s = js "0x" then noneAnnot
    else if s.length < 6 then ⟨js "invalid", some (js "data is < 6 bytes"), none, none⟩
    else
      let version := (s.drop 2).take 2
      let typeField := (jsParseIntHex ((s.drop 4).take 2)).getD 0
      let encrypted := if Nat.land typeField SIG_DATA_ENCRYPTED_FLAG ≠ 0 then true else false
      let typeNum := Nat.land typeField 4294967167
      let sigData0 := s.drop 6
      let sigData :=
        if encrypted ∧ sigData0 ≠ [] then (decryptHex key sigData0).getD []
        else sigData0
      decodeSwitch version encrypted typeNum sigData

/-- A JavaScript value in the `encrypted` slot of the sign data: absent, a
boolean, or a (non-boolean) string. -/
inductive JsFlag where
  | missing
  | bool (b : Bool)
  | str (s : List Nat)
deriving DecidableEq

/-- JavaScript truthiness of the `encrypted` slot. -/
def JsFlag.truthy : JsFlag → Bool
  | .missing => false
  | .bool b => b
  | .str s => !s.isEmpty

/-- Whether `typeof data.encrypted === 'boolean'` fails while the value is
truthy, which is the validation `_encodeData` applies. -/
def JsFlag.invalidFlag : JsFlag → Bool
  | .str s => !s.isEmpty
  | _ => false

/-- A JavaScript value in the `content` slot: a string or a number (the
repository's tests exercise numeric content). -/
inductive JsContent where
  | str (s : List Nat)
  | num (n : Int)
deriving DecidableEq

/-- The argument of `Document.sign` (`data = {}` by default). -/
structure SignData where
  type : Option (List Nat)
  encrypted : JsFlag
  content : Option JsContent
deriving DecidableEq

/-- ethers.js `isHexString(value)`: a string matching `^0x[0-9A-Fa-f]*$`. -/
def isHexString (s : List Nat) : Bool :=
  match s with
  | 48 :: 120 :: rest => rest.all (fun c => (hexVal c).isSome)
  | _ => false

/-- providers.js `_encodeData(data, encryptionKey)`.  Validation errors are
thrown (`Except.error` with the message); the success value is the
0x-prefixed hex payload.  The encryption nonce is a parameter standing for
the random 12 bytes `EncryptionKey.encrypt` draws. -/
def encodeData (data : SignData) (key nonce : List Nat) :
    Except (List Nat) (List Nat) :=
  if data.content = none ∨ data.content = some (.str []) then .ok (js "0x")
  else if data.encrypted.invalidFlag then .error (js "invalid data encrypted flag")
  else
    let type0 : Nat := if data.encrypted.truthy then SIG_DATA_ENCRYPTED_FLAG else 0
    let step : Except (List Nat) (Nat × List Nat) :=
      if data.type = some (js "string") then
        match data.content with
        | some (.str s) => .ok (type0 + SIG_DATA_TYPE_STRING, unicodeStrToHex s)
        | _ => .error (js "invalid data content")
      else if data.type = some (js "hex") then
        match data.content with
        | some (.str s) =>
          if isHexString s then
            .ok (type0 + SIG_DATA_TYPE_BYTES,
                 if s.take 2 = js "0x" then s.drop 2 else s)
          else .error (js "invalid data content")
        | _ => .error (js "invalid data content")
      else
        .error (js "invalid data type " ++ [39] ++
          (match data.type with | some t => t | none => js "undefined") ++ [39])
    match step with
    | .error e => .error e
    | .ok (ty, encData) =>
      let typeStr := byteToHex ty
      if data.encrypted.truthy then
        .ok (js "0x" ++ SIG_DATA_VERSION ++ typeStr ++ encryptHex key nonce encData)
      else
        .ok (js "0x" ++ SIG_DATA_VERSION ++ typeStr ++ encData)

/-! ## Signature events and discovery (`_discoverSignatures`) -/

/-- A raw log record as seen after `ethers` parsing in
`_decodeSignatureEvent`: either unparseable (`parseLog` returned null) or
the four decoded event arguments, with the annotation bytes as 0x-prefixed
hex. -/
inductive RawEvent where
  | unparseable
  | parsed (time : Nat) (signatory : List Nat) (signature : List Nat) (dataHex : List Nat)
deriving DecidableEq

/-- The decoded signature event object. -/
structure SigEvent where
  time : Nat
  signatory : List Nat
  signature : List Nat
  data : Annot
deriving DecidableEq

/-- providers.js `_decodeSignatureEvent`: a null parse yields the degenerate
sentinel event, otherwise the annotation bytes are decoded with the
document's key. -/
def decodeSignatureEvent (key : List Nat) : RawEvent → SigEvent
  | .unparseable => ⟨0, [], [], noneAnnot⟩
  | .parsed t s sig d => ⟨t, s, sig, decodeData (some d) key⟩

/-- State threaded through `_discoverNext`. -/
structure DiscoverState where
  signatureEvents : List SigEvent
  hashes : HashIterator
  lastSignatureIndex : Int
  queryLog : List (List (List Nat))
  respSizes : List Nat
  matchLog : List Int
deriving DecidableEq

/-- Result of a terminated discovery.  `queryLog`, `respSizes` and
`matchLog` are instrumentation absent from the source: they record each
`querySignatures` argument, each batch's returned event count, and each
`indexOf` lookup result, and exist only so the batching claims can be
stated. -/
structure DiscoverResult where
  hashes : HashIterator
  signatures : List SigEvent
  queryLog : List (List (List Nat))
  respSizes : List Nat
  matchLog : List Int
deriving DecidableEq, Inhabited

/-- providers.js `_discoverNext(n)`: extends the iterator by `n`, queries
the collaborator with the hex hashes, decodes the events, folds the highest
confirmed chain index, and either terminates (rewinding the iterator to
that index) when the batch did not return exactly
`MAX_SIGS_PER_DISCOVERY_ITERATION` events, or recurses for another batch.
The fuel argument bounds the recursion; `none` means fuel ran out before
the loop terminated. -/
def discoverNext (query : List (List Nat) → List RawEvent) (key : List Nat) :
    Nat → DiscoverState → Nat → Option DiscoverResult
  | 0, _, _ => none
  | fuel + 1, st, n =>
    let step := st.hashes.next n
    let it1 := step.2
    let strEsigs := step.1.map (buf2hex true)
    let parsedEvents := (query strEsigs).map (decodeSignatureEvent key)
    let idxs := parsedEvents.map (fun e => it1.indexOf e.signature)
    let last1 := idxs.foldl (fun acc i => if i > acc then i else acc) st.lastSignatureIndex
    let st1 : DiscoverState :=
      { signatureEvents := st.signatureEvents ++ parsedEvents,
        hashes := it1,
        lastSignatureIndex := last1,
        queryLog := st.queryLog ++ [strEsigs],
        respSizes := st.respSizes ++ [parsedEvents.length],
        matchLog := st.matchLog ++ idxs }
    if parsedEvents.length ≠ MAX_SIGS_PER_DISCOVERY_ITERATION then
      some ⟨it1.reset last1, st1.signatureEvents, st1.queryLog, st1.respSizes, st1.matchLog⟩
    else
      discoverNext query key fuel st1 MAX_SIGS_PER_DISCOVERY_ITERATION

/-- providers.js `_discoverSignatures`: fresh iterator, empty accumulators,
and the loop started with a batch of `MAX_SIGS_PER_DISCOVERY_ITERATION`. -/
def discoverSignatures (chainId : Nat) (documentHash key : List Nat)
    (query : List (List Nat) → List RawEvent) (fuel : Nat) : Option DiscoverResult :=
  discoverNext query key fuel
    ⟨[], freshIterator documentHash chainId, -1, [], [], []⟩
    MAX_SIGS_PER_DISCOVERY_ITERATION

/-! ## Document.sign -/

/-- The result `publishSignature` resolves with (the core forwards it
untouched). -/
structure PublishResult where
  txHash : List Nat
  signatory : List Nat
  signature : List Nat
deriving DecidableEq

/-- The state of a `Document` that `sign` touches: `encryptionKey` is
`new EncryptionKey(documentHash)`, so the key bytes equal the document
hash. -/
structure Doc where
  chainId : Nat
  documentHash : List Nat
  hashes : Option HashIterator
  signingInProgress : Bool
deriving DecidableEq

/-- providers.js `Document.sign(data)` with the publish collaborator passed
as a function.  The two precondition throws happen before the busy flag is
set and before any generator state is touched; afterwards `next()` consumes
one hash, `_publishSignature` encodes the annotation
(`buf2hex(signature[0])` is the published hex) and calls the collaborator;
the `catch` rewinds the pointer by one (`reset(currentIndex() - 1)`) and
rethrows; the `finally` clears the busy flag. -/
def signStep (doc : Doc) (data : SignData) (nonce : List Nat)
    (publish : List Nat → List Nat → Except (List Nat) PublishResult) :
    Except (List Nat) PublishResult × Doc :=
  if doc.signingInProgress then (.error (js "Signing already in progress"), doc)
  else
    match doc.hashes with
    | none => (.error (js "Must verify before signing"), doc)
    | some it =>
      let step := it.next 1
      let it1 := step.2
      let sigHex := buf2hex true (step.1.headD [])
      match encodeData data doc.documentHash nonce with
      | .error e =>
        (.error e,
         { doc with hashes := some (it1.reset (it1.currentIndex - 1)),
                    signingInProgress := false })
      | .ok encoded =>
        match publish sigHex encoded with
        | .error e =>
          (.error e,
           { doc with hashes := some (it1.reset (it1.currentIndex - 1)),
                      signingInProgress := false })
        | .ok r => (.ok r, { doc with hashes := some it1, signingInProgress := false })

/-- Decidable equality for `Except`, used to evaluate sign results. -/
instance {ε α : Type} [DecidableEq ε] [DecidableEq α] : DecidableEq (Except ε α)
  | .error e, .error e' =>
    if h : e = e' then .isTrue (by rw [h])
    else .isFalse (by intro hc; injection hc with heq; exact h heq)
  | .ok x, .ok y =>
    if h : x = y then .isTrue (by rw [h])
    else .isFalse (by intro hc; injection hc with heq; exact h heq)
  | .error _, .ok _ => .isFalse (by intro hc; cases hc)
  | .ok _, .error _ => .isFalse (by intro hc; cases hc)

/-! ## Concrete fixtures used by witnesses and counterexamples -/

/-- The 32-byte document hash of the spec's concrete vector (0x01
repeated). -/
def docHash0 : List Nat := List.replicate 32 1

/-- A 12-byte nonce standing for the random bytes drawn by
`EncryptionKey.encrypt`. -/
def nonce0 : List Nat := List.replicate 12 9

/-- A 32-byte key distinct from `docHash0`. -/
def key0 : List Nat := List.replicate 32 7

set_option maxRecDepth 400000

/-! ## C5: pointer and reset laws -/

/-- C5: immediately after a fresh generator's first `next(k)` call,
`currentIndex()` equals `k - 1`; after `reset(n)`, `currentIndex()` equals
`n`; and `reset` never truncates materialized elements: `indexAt(i)` is
unchanged by `reset(n)` for every index `i`. -/
theorem iterator_pointer_laws (d : List Nat) (c : Nat) (k : Nat) (n : Int)
    (it : HashIterator) (i : Int) :
    ((freshIterator d c).next k).2.currentIndex = (k : Int) - 1 ∧
    (it.reset n).currentIndex = n ∧
    (it.reset n).indexAt i = it.indexAt i := by
  refine ⟨?_, rfl, rfl⟩
  simp only [HashIterator.next, freshIterator, HashIterator.currentIndex]
  omega

/-! ## C6: decode sentinels (corrected) -/

/-- C6 is refuted as stated: `0x0000` is a two-byte payload (shorter than 3
bytes), yet `_decodeData` decodes it to a normal empty string annotation,
not to an `invalid` sentinel; the code's guard is on the hex-string length
(`encData.length < 6`, counting the `0x` prefix), which admits all two-byte
payloads. -/
theorem decode_two_bytes_refuted :
    (decodeData (some (js "0x0000")) []).type ≠ js "invalid" ∧
    decodeData (some (js "0x0000")) [] =
      ⟨js "string", some [], some (js "00"), some false⟩ := by
  constructor
  · decide
  · decide

/-- C6 (amended): `_decodeData` never throws; an empty or absent payload
(including the `0x` placeholder) decodes to the sentinel `none` annotation,
and any payload whose hex string is shorter than 6 characters counting the
`0x` prefix — that is, any payload of fewer than 2 whole bytes — decodes to
an `invalid` annotation carrying a diagnostic message rather than raising
an error (a 2-byte payload already decodes as a normal annotation). -/
theorem decode_sentinels (key s : List Nat)
    (h1 : s ≠ []) (h2 : s ≠ js "0x") (h3 : s.length < 6) :
    decodeData none key = noneAnnot ∧
    decodeData (some []) key = noneAnnot ∧
    decodeData (some (js "0x")) key = noneAnnot ∧
    decodeData (some s) key =
      ⟨js "invalid", some (js "data is < 6 bytes"), none, none⟩ := by
  refine ⟨rfl, by simp [decodeData], by simp [decodeData], ?_⟩
  simp [decodeData, h1, h2, h3]

/-- Witness for C6 at the one-byte payload `0x00`. -/
theorem decode_sentinels_witness :
    (js "0x00" ≠ [] ∧ js "0x00" ≠ js "0x" ∧ (js "0x00").length < 6) ∧
    decodeData (some (js "0x00")) [] =
      ⟨js "invalid", some (js "data is < 6 bytes"), none, none⟩ :=
  ⟨by refine ⟨by decide, by decide, by decide⟩,
   (decode_sentinels [] (js "0x00") (by decide) (by decide) (by decide)).2.2.2⟩

/-! ## C7: decryption failures during decode are recovered locally -/

/-- C7: during decode of an encrypted, non-empty payload, a decryption
failure is never propagated: the decoder substitutes an empty payload for
the content and the decode still returns an annotation object (the result
is exactly the dispatch on an empty decrypted payload). -/
theorem decode_decrypt_failure_lenient (key s : List Nat)
    (h1 : ¬(s = [] ∨ s = js "0x"))
    (h2 : ¬s.length < 6)
    (henc : Nat.land ((jsParseIntHex ((s.drop 4).take 2)).getD 0) SIG_DATA_ENCRYPTED_FLAG ≠ 0)
    (hne : s.drop 6 ≠ [])
    (hfail : decryptHex key (s.drop 6) = none) :
    decodeData (some s) key =
      decodeSwitch ((s.drop 2).take 2) true
        (Nat.land ((jsParseIntHex ((s.drop 4).take 2)).getD 0) 4294967167) [] := by
  simp [decodeData, h1, h2, henc, hne, hfail]

/-- Witness for C7: an encrypted payload whose ciphertext fails
authentication decodes to an empty string annotation instead of an
error. -/
theorem decode_decrypt_failure_lenient_witness :
    (¬(js "0x008000" = [] ∨ js "0x008000" = js "0x") ∧
     ¬(js "0x008000").length < 6 ∧
     Nat.land ((jsParseIntHex (((js "0x008000").drop 4).take 2)).getD 0)
       SIG_DATA_ENCRYPTED_FLAG ≠ 0 ∧
     (js "0x008000").drop 6 ≠ [] ∧
     decryptHex key0 ((js "0x008000").drop 6) = none) ∧
    decodeData (some (js "0x008000")) key0 =
      decodeSwitch (js "00") true 0 [] := by
  refine ⟨⟨by decide, by decide, by decide, by decide, by decide⟩, ?_⟩
  have h := decode_decrypt_failure_lenient key0 (js "0x008000")
    (by decide) (by decide) (by decide) (by decide) (by decide)
  simpa using h

/-! ## C1: the hash chain recurrence (corrected) -/

theorem chainList_succ (hc : List Nat) (l : Nat) :
    chainList hc (l + 1) = chainList hc l ++ [chainElem hc l] := by
  simp [chainList, List.range_succ]

theorem extendChain_spec (hc : List Nat) :
    ∀ (k l : Nat), 1 ≤ l →
      chainList hc l ++ extendChain hc (chainElem hc (l - 1)) k = chainList hc (l + k) := by
  intro k
  induction k with
  | zero => intro l _; simp [extendChain]
  | succ k ih =>
    intro l hl
    obtain ⟨m, rfl⟩ : ∃ m, l = m + 1 := ⟨l - 1, by omega⟩
    have hstep : sha256 (hc ++ chainElem hc (m + 1 - 1)) = chainElem hc (m + 1) := by
      simp [chainElem]
    simp only [extendChain, hstep]
    have := ih (m + 2) (by omega)
    calc chainList hc (m + 1) ++ chainElem hc (m + 1) :: extendChain hc (chainElem hc (m + 1)) k
        = (chainList hc (m + 1) ++ [chainElem hc (m + 1)]) ++
            extendChain hc (chainElem hc (m + 2 - 1)) k := by simp
      _ = chainList hc (m + 2) ++ extendChain hc (chainElem hc (m + 2 - 1)) k := by
            rw [← chainList_succ]
      _ = chainList hc (m + 2 + k) := this
      _ = chainList hc (m + 1 + (k + 1)) := by ring_nf

theorem chainList_getLastD (hc : List Nat) (l : Nat) (hl : 1 ≤ l) :
    (chainList hc l).getLastD [] = chainElem hc (l - 1) := by
  obtain ⟨m, rfl⟩ : ∃ m, l = m + 1 := ⟨l - 1, by omega⟩
  rw [chainList_succ]
  simp

@[simp] theorem chainList_length (hc : List Nat) (l : Nat) :
    (chainList hc l).length = l := by
  simp [chainList]

@[simp] theorem extendChain_length (hc : List Nat) (last : List Nat) (k : Nat) :
    (extendChain hc last k).length = k := by
  induction k generalizing last with
  | zero => rfl
  | succ k ih => simp [extendChain, ih]

theorem chainList_extend (hc : List Nat) (l k : Nat) (hl : 1 ≤ l) :
    chainList hc l ++ extendChain hc ((chainList hc l).getLastD []) k
      = chainList hc (l + k) := by
  rw [chainList_getLastD hc l hl]
  exact extendChain_spec hc k l hl

/-- The data part of the iterator invariant: the chain-specific hash, once
set, is `chainSeed`, and the materialized list is always a prefix of the
deterministic chain. -/
def chainConsistent (d : List Nat) (c : Nat) (it : HashIterator) : Prop :=
  it.documentHash = d ∧ it.chainId = c ∧
  (∀ h, it.chainSpecificHash = some h → h = chainSeed d c) ∧
  it.hashes = chainList (chainSeed d c) it.hashes.length

theorem chainConsistent_fresh (d : List Nat) (c : Nat) :
    chainConsistent d c (freshIterator d c) := by
  refine ⟨rfl, rfl, ?_, ?_⟩ <;> simp [freshIterator, chainList]

theorem chainConsistent_next (d : List Nat) (c : Nat) (it : HashIterator) (n : Nat)
    (h : chainConsistent d c it) : chainConsistent d c (it.next n).2 := by
  obtain ⟨hd, hc, hcsh, hhs⟩ := h
  simp only [HashIterator.next]
  set csh := match it.chainSpecificHash with
    | some h => h
    | none => sha256 (chainIdBytes it.chainId ++ it.documentHash) with hcshdef
  have hcsheq : csh = chainSeed d c := by
    rw [hcshdef]
    cases hx : it.chainSpecificHash with
    | some h => exact hcsh h hx
    | none => simp [chainSeed, hd, hc]
  set hashes1 := if it.hashes.isEmpty then [sha256 csh] else it.hashes with h1def
  have hlen1 : 1 ≤ hashes1.length := by
    rw [h1def]
    split
    · simp
    · rename_i hne
      have : it.hashes ≠ [] := by simpa [List.isEmpty_iff] using hne
      simpa [Nat.succ_le, List.length_pos] using this
  have hh1 : hashes1 = chainList (chainSeed d c) hashes1.length := by
    rw [h1def]
    split
    · rename_i he
      have : it.hashes = [] := by simpa [List.isEmpty_iff] using he
      simp [chainList, List.range_succ, chainElem, hcsheq]
    · exact hhs
  refine ⟨hd, hc, ?_, ?_⟩
  · intro h hx
    simpa [hcsheq] using hx.symm
  · simp only [hcsheq]
    rw [hh1]
    simp only [chainList_length, List.length_append, extendChain_length]
    exact chainList_extend _ _ _ hlen1

theorem chainConsistent_runOps (d : List Nat) (c : Nat) :
    ∀ (ops : List IterOp) (it : HashIterator),
      chainConsistent d c it → chainConsistent d c (runOps it ops) := by
  intro ops
  induction ops with
  | nil => intro it h; exact h
  | cons op rest ih =>
    intro it h
    cases op with
    | next n => exact ih _ (chainConsistent_next d c it n h)
    | reset n =>
      refine ih _ ?_
      obtain ⟨hd, hc, hcsh, hhs⟩ := h
      exact ⟨hd, hc, hcsh, hhs⟩

/-- C1 is refuted as stated: with documentHash = 32 bytes of 0x01 and
chainId = 4, the first generated element is not
`SHA-256(SHA-256(concat(0x34, documentHash)))` — the code encodes the chain
id character `4` as the byte 0x04 (`Uint8Array.from` coerces each decimal
character with `ToNumber`), not as its ASCII code 0x34. -/
theorem chain_ascii_refuted :
    ((freshIterator docHash0 4).next 1).1 ≠ [sha256 (sha256 (52 :: docHash0))] ∧
    ((freshIterator docHash0 4).next 1).1 = [sha256 (sha256 (4 :: docHash0))] := by
  constructor
  · decide
  · decide

/-- C1 (amended): for every document hash and chain identifier, every
element the generator ever materializes (under any sequence of `next` and
`reset` calls) satisfies element 0 = SHA-256(Hc) and element i =
SHA-256(concat(Hc, element i-1)), where Hc = SHA-256(concat(b,
documentHash)) and b is the byte sequence of the numeric values of the
decimal digits of the chain identifier (chainId 4 contributes the single
byte 0x04). -/
theorem chain_recurrence_digit_bytes (d : List Nat) (c : Nat) (ops : List IterOp) (i : Nat)
    (h : i < (runOps (freshIterator d c) ops).hashes.length) :
    (runOps (freshIterator d c) ops).hashes.getD i [] = chainElem (chainSeed d c) i := by
  have hinv := chainConsistent_runOps d c ops _ (chainConsistent_fresh d c)
  obtain ⟨-, -, -, hhs⟩ := hinv
  rw [hhs]
  rw [hhs] at h
  simp only [chainList] at h ⊢
  rw [List.getD_eq_getElem?_getD]
  simp only [List.length_map, List.length_range] at h
  rw [List.getElem?_map]
  rw [List.getElem?_range h]
  rfl

/-- Witness for C1 at chainId 1, two extended elements. -/
theorem chain_recurrence_digit_bytes_witness :
    1 < (runOps (freshIterator docHash0 1) [IterOp.next 2]).hashes.length ∧
    (runOps (freshIterator docHash0 1) [IterOp.next 2]).hashes.getD 1 [] =
      chainElem (chainSeed docHash0 1) 1 :=
  ⟨by decide, chain_recurrence_digit_bytes docHash0 1 [IterOp.next 2] 1 (by decide)⟩

/-! ## Sign: rollback, preconditions, atomicity -/

@[simp] theorem next_hashPtr (it : HashIterator) (n : Nat) :
    (it.next n).2.hashPtr = it.hashPtr + n := by
  simp [HashIterator.next]

/-- Shape of a single `next()` call: the new state keeps the document data,
stores the chain-specific hash, extends the materialized list to at least
`hashPtr + 2` elements and advances the pointer by one; the returned slice
is the window between the old and new pointer. -/
theorem next_one_shape (it : HashIterator) :
    ∃ csh H2,
      (it.next 1).2 = ⟨it.documentHash, it.chainId, some csh, H2, it.hashPtr + 1⟩ ∧
      (it.next 1).1 = jsSlice H2 (it.hashPtr + 1) (it.hashPtr + 1 + 1) ∧
      H2 ≠ [] ∧ it.hashPtr + 2 ≤ (H2.length : Int) := by
  simp only [HashIterator.next]
  refine ⟨_, _, rfl, rfl, ?_, ?_⟩
  · have h1 : (if it.hashes.isEmpty then
        [sha256 (match it.chainSpecificHash with
          | some h => h
          | none => sha256 (chainIdBytes it.chainId ++ it.documentHash))]
        else it.hashes) ≠ [] := by
      split
      · simp
      · rename_i hne; simpa [List.isEmpty_iff] using hne
    intro hcontra
    exact h1 (List.append_eq_nil.mp hcontra).1
  · set l1 := (if it.hashes.isEmpty then
        [sha256 (match it.chainSpecificHash with
          | some h => h
          | none => sha256 (chainIdBytes it.chainId ++ it.documentHash))]
        else it.hashes)
    simp only [List.length_append, extendChain_length]
    omega

/-- A `next(1)` performed on the state left by a failed sign (pointer
rewound by one after a `next(1)`) returns the same slice as the original
`next(1)` — the retry consumes the very same signature hash. -/
theorem next_after_rollback (it : HashIterator) :
    (((it.next 1).2.reset ((it.next 1).2.hashPtr - 1)).next 1).1 = (it.next 1).1 := by
  obtain ⟨csh, H2, hst, hret, hne, hlen⟩ := next_one_shape it
  rw [hret, hst]
  show (HashIterator.next
      ⟨it.documentHash, it.chainId, some csh, H2, it.hashPtr + 1 - 1⟩ 1).1 = _
  simp only [HashIterator.next, Nat.cast_one]
  have hke : (it.hashPtr + 1 - 1 + 1 + 1 - (H2.length : Int)).toNat = 0 := by omega
  have hne' : H2.isEmpty = false := by simpa [List.isEmpty_iff] using hne
  simp only [hne', Bool.false_eq_true, if_false, hke, extendChain, List.append_nil]
  have e1 : it.hashPtr + 1 - 1 + 1 = it.hashPtr + 1 := by ring
  rw [e1]

/-- C3: if `sign()` is called on a verified document and the publish
collaborator rejects, the error is rethrown unchanged, the generator
pointer is back at its pre-call value (the tentative `next()` consumption is
undone by `reset(currentIndex() - 1)`), the busy flag is clear, and a
subsequent `sign()` consumes exactly the same signature hash slice as the
failed attempt. -/
theorem sign_rollback_on_publish_failure (doc : Doc) (it : HashIterator) (data : SignData)
    (nonce e enc : List Nat)
    (h1 : doc.signingInProgress = false)
    (h2 : doc.hashes = some it)
    (h3 : encodeData data doc.documentHash nonce = .ok enc) :
    (signStep doc data nonce (fun _ _ => .error e)).1 = .error e ∧
    (signStep doc data nonce (fun _ _ => .error e)).2.hashes.map
        HashIterator.currentIndex = some it.currentIndex ∧
    (signStep doc data nonce (fun _ _ => .error e)).2.signingInProgress = false ∧
    (signStep doc data nonce (fun _ _ => .error e)).2.hashes.map
        (fun j => (j.next 1).1) = some (it.next 1).1 := by
  refine ⟨?_, ?_, ?_, ?_⟩
  · simp [signStep, h1, h2, h3]
  · simp [signStep, h1, h2, h3, HashIterator.reset, HashIterator.currentIndex]
  · simp [signStep, h1, h2, h3]
  · simpa [signStep, h1, h2, h3, HashIterator.currentIndex, HashIterator.reset]
      using next_after_rollback it

/-- Witness for C3: a verified document, empty sign data, and a publish
collaborator that always rejects. -/
theorem sign_rollback_on_publish_failure_witness :
    ((⟨1, docHash0, some (freshIterator docHash0 1), false⟩ : Doc).signingInProgress = false ∧
     (⟨1, docHash0, some (freshIterator docHash0 1), false⟩ : Doc).hashes =
       some (freshIterator docHash0 1) ∧
     encodeData ⟨none, .missing, none⟩ docHash0 [] = .ok (js "0x")) ∧
    (signStep ⟨1, docHash0, some (freshIterator docHash0 1), false⟩ ⟨none, .missing, none⟩ []
        (fun _ _ => .error (js "boom"))).1 = .error (js "boom") ∧
    (signStep ⟨1, docHash0, some (freshIterator docHash0 1), false⟩ ⟨none, .missing, none⟩ []
        (fun _ _ => .error (js "boom"))).2.hashes.map HashIterator.currentIndex =
      some (freshIterator docHash0 1).currentIndex ∧
    (signStep ⟨1, docHash0, some (freshIterator docHash0 1), false⟩ ⟨none, .missing, none⟩ []
        (fun _ _ => .error (js "boom"))).2.hashes.map (fun j => (j.next 1).1) =
      some ((freshIterator docHash0 1).next 1).1 := by
  have h := sign_rollback_on_publish_failure
    ⟨1, docHash0, some (freshIterator docHash0 1), false⟩ (freshIterator docHash0 1)
    ⟨none, .missing, none⟩ [] (js "boom") (js "0x") rfl rfl rfl
  exact ⟨⟨rfl, rfl, rfl⟩, h.1, h.2.1, h.2.2.2⟩

/-- C4: `sign()` rejects immediately with the state-precondition error when
no generator exists (no successful verify has happened), and rejects — does
not queue — a call made while the busy flag of an in-flight sign is set; in
both cases the document state is left untouched, whatever the publish
collaborator would do. -/
theorem sign_preconditions (doc : Doc) (data : SignData) (nonce : List Nat)
    (publish : List Nat → List Nat → Except (List Nat) PublishResult) :
    (doc.signingInProgress = true →
      signStep doc data nonce publish = (.error (js "Signing already in progress"), doc)) ∧
    (doc.signingInProgress = false → doc.hashes = none →
      signStep doc data nonce publish = (.error (js "Must verify before signing"), doc)) := by
  constructor
  · intro h; simp [signStep, h]
  · intro h h'; simp [signStep, h, h']

/-- Witness for C4: a busy document and an unverified document. -/
theorem sign_preconditions_witness :
    ((⟨1, docHash0, some (freshIterator docHash0 1), true⟩ : Doc).signingInProgress = true ∧
     (⟨1, docHash0, none, false⟩ : Doc).signingInProgress = false ∧
     (⟨1, docHash0, none, false⟩ : Doc).hashes = none) ∧
    signStep ⟨1, docHash0, some (freshIterator docHash0 1), true⟩ ⟨none, .missing, none⟩ []
        (fun _ _ => .ok ⟨js "0x123", js "0xabc", js "0xsig"⟩) =
      (.error (js "Signing already in progress"),
       ⟨1, docHash0, some (freshIterator docHash0 1), true⟩) ∧
    signStep ⟨1, docHash0, none, false⟩ ⟨none, .missing, none⟩ []
        (fun _ _ => .ok ⟨js "0x123", js "0xabc", js "0xsig"⟩) =
      (.error (js "Must verify before signing"), ⟨1, docHash0, none, false⟩) :=
  ⟨⟨rfl, rfl, rfl⟩,
   (sign_preconditions ⟨1, docHash0, some (freshIterator docHash0 1), true⟩
     ⟨none, .missing, none⟩ [] (fun _ _ => .ok ⟨js "0x123", js "0xabc", js "0xsig"⟩)).1 rfl,
   (sign_preconditions ⟨1, docHash0, none, false⟩
     ⟨none, .missing, none⟩ [] (fun _ _ => .ok ⟨js "0x123", js "0xabc", js "0xsig"⟩)).2 rfl rfl⟩

/-- C10: whatever the cause of a rejection of an admitted `sign()` —
annotation validation errors raised during encoding as much as publish
failures — the generator pointer after the rejection equals its value
before the call and the busy flag is cleared, so a subsequent `sign()` is
admitted. -/
theorem sign_atomic_rejection (doc : Doc) (it : HashIterator) (data : SignData)
    (nonce e : List Nat)
    (publish : List Nat → List Nat → Except (List Nat) PublishResult) (doc' : Doc)
    (h1 : doc.signingInProgress = false) (h2 : doc.hashes = some it)
    (h : signStep doc data nonce publish = (.error e, doc')) :
    doc'.hashes.map HashIterator.currentIndex = some it.currentIndex ∧
    doc'.signingInProgress = false := by
  cases henc : encodeData data doc.documentHash nonce with
  | error e' =>
    simp only [signStep, h1, h2, henc, Bool.false_eq_true, if_false, Prod.mk.injEq] at h
    obtain ⟨-, hdoc⟩ := h
    subst hdoc
    refine ⟨?_, rfl⟩
    simp [HashIterator.reset, HashIterator.currentIndex]
  | ok encd =>
    cases hpub : publish (buf2hex true ((it.next 1).1.headD [])) encd with
    | error e' =>
      simp only [signStep, h1, h2, henc, hpub, Bool.false_eq_true, if_false,
        Prod.mk.injEq] at h
      obtain ⟨-, hdoc⟩ := h
      subst hdoc
      refine ⟨?_, rfl⟩
      simp [HashIterator.reset, HashIterator.currentIndex]
    | ok r =>
      simp only [signStep, h1, h2, henc, hpub, Bool.false_eq_true, if_false,
        Prod.mk.injEq] at h
      exact absurd h.1 (by simp)

/-- Witness for C10: a sign rejected by annotation validation (invalid
type) leaves the pointer untouched and the busy flag clear. -/
theorem sign_atomic_rejection_witness :
    ((⟨1, docHash0, some (freshIterator docHash0 1), false⟩ : Doc).signingInProgress = false ∧
     (⟨1, docHash0, some (freshIterator docHash0 1), false⟩ : Doc).hashes =
       some (freshIterator docHash0 1) ∧
     signStep ⟨1, docHash0, some (freshIterator docHash0 1), false⟩
        ⟨some (js "bogus"), .bool false, some (.str (js "aa"))⟩ []
        (fun _ _ => .ok ⟨js "0x123", js "0xabc", js "0xsig"⟩) =
      (.error (js "invalid data type " ++ [39] ++ js "bogus" ++ [39]),
       (signStep ⟨1, docHash0, some (freshIterator docHash0 1), false⟩
          ⟨some (js "bogus"), .bool false, some (.str (js "aa"))⟩ []
          (fun _ _ => .ok ⟨js "0x123", js "0xabc", js "0xsig"⟩)).2)) ∧
    (signStep ⟨1, docHash0, some (freshIterator docHash0 1), false⟩
        ⟨some (js "bogus"), .bool false, some (.str (js "aa"))⟩ []
        (fun _ _ => .ok ⟨js "0x123", js "0xabc", js "0xsig"⟩)).2.hashes.map
      HashIterator.currentIndex = some (freshIterator docHash0 1).currentIndex ∧
    (signStep ⟨1, docHash0, some (freshIterator docHash0 1), false⟩
        ⟨some (js "bogus"), .bool false, some (.str (js "aa"))⟩ []
        (fun _ _ => .ok ⟨js "0x123", js "0xabc", js "0xsig"⟩)).2.signingInProgress = false := by
  refine ⟨⟨rfl, rfl, by decide⟩, ?_⟩
  exact sign_atomic_rejection ⟨1, docHash0, some (freshIterator docHash0 1), false⟩
    (freshIterator docHash0 1) ⟨some (js "bogus"), .bool false, some (.str (js "aa"))⟩
    [] (js "invalid data type " ++ [39] ++ js "bogus" ++ [39])
    (fun _ _ => .ok ⟨js "0x123", js "0xabc", js "0xsig"⟩) _ rfl rfl (by decide)

/-! ## Discovery: batching and termination -/

theorem seeded_length_pos (hs : List (List Nat)) (x : List Nat) :
    1 ≤ (if hs.isEmpty then [x] else hs).length := by
  split
  · simp
  · rename_i h
    have hne : hs ≠ [] := by simpa [List.isEmpty_iff] using h
    simpa [Nat.succ_le, List.length_pos] using hne

/-- Whenever the pointer is at least -1, `next(n)` returns exactly `n`
elements. -/
theorem next_ret_length (it : HashIterator) (n : Nat) (h : -1 ≤ it.hashPtr) :
    (it.next n).1.length = n := by
  simp only [HashIterator.next, jsSlice]
  have hl1 := seeded_length_pos it.hashes
    (sha256 (match it.chainSpecificHash with
      | some h => h
      | none => sha256 (chainIdBytes it.chainId ++ it.documentHash)))
  simp only [List.length_append, extendChain_length, List.length_drop, List.length_take]
  omega

theorem foldl_if_max (l : List Int) :
    ∀ acc : Int, l.foldl (fun acc i => if i > acc then i else acc) acc =
      l.foldl (fun acc i => max acc i) acc := by
  induction l with
  | nil => intro acc; rfl
  | cons a t ih =>
    intro acc
    simp only [List.foldl_cons]
    rw [ih]
    congr 1
    by_cases hc : a > acc
    · rw [if_pos hc, max_eq_right (le_of_lt hc)]
    · rw [if_neg hc, max_eq_left (by omega)]

/-- Invariant-carrying loop lemma for `_discoverNext` at batch size
`MAX_SIGS_PER_DISCOVERY_ITERATION`. -/
theorem discoverNext_props (query : List (List Nat) → List RawEvent) (key : List Nat) :
    ∀ (fuel : Nat) (st : DiscoverState) (res : DiscoverResult),
      -1 ≤ st.hashes.hashPtr →
      (∀ q ∈ st.queryLog, q.length = MAX_SIGS_PER_DISCOVERY_ITERATION) →
      st.respSizes.length = st.queryLog.length →
      (∀ x ∈ st.respSizes, x = MAX_SIGS_PER_DISCOVERY_ITERATION) →
      st.lastSignatureIndex = st.matchLog.foldl (fun acc i => max acc i) (-1) →
      st.signatureEvents.length = st.respSizes.sum →
      discoverNext query key fuel st MAX_SIGS_PER_DISCOVERY_ITERATION = some res →
      (∀ q ∈ res.queryLog, q.length = MAX_SIGS_PER_DISCOVERY_ITERATION) ∧
      res.respSizes.length = res.queryLog.length ∧
      res.respSizes ≠ [] ∧
      (∀ i, i + 1 < res.respSizes.length →
        res.respSizes.getD i 0 = MAX_SIGS_PER_DISCOVERY_ITERATION) ∧
      res.respSizes.getLastD 0 ≠ MAX_SIGS_PER_DISCOVERY_ITERATION ∧
      res.hashes.hashPtr = res.matchLog.foldl (fun acc i => max acc i) (-1) ∧
      res.signatures.length = res.respSizes.sum := by
  intro fuel
  induction fuel with
  | zero =>
    intro st res _ _ _ _ _ _ h
    exact absurd h (by simp [discoverNext])
  | succ fuel ih =>
    intro st res hptr hq hlen h10 hlast hsig h
    simp only [discoverNext] at h
    set nx := st.hashes.next MAX_SIGS_PER_DISCOVERY_ITERATION with hnx
    set batch := nx.1.map (buf2hex true) with hbatchdef
    set evs := (query batch).map (decodeSignatureEvent key) with hevsdef
    set idxs := evs.map (fun e => nx.2.indexOf e.signature) with hidxsdef
    have hbatch : batch.length = MAX_SIGS_PER_DISCOVERY_ITERATION := by
      rw [hbatchdef, hnx]
      simp [next_ret_length st.hashes _ hptr]
    have hfold : List.foldl (fun acc i => if i > acc then i else acc)
          st.lastSignatureIndex idxs
        = List.foldl (fun acc i => max acc i) (-1) (st.matchLog ++ idxs) := by
      rw [foldl_if_max, hlast, List.foldl_append]
    split at h
    · rename_i hterm
      rw [Option.some.injEq] at h
      subst h
      refine ⟨?_, ?_, ?_, ?_, ?_, ?_, ?_⟩
      · intro q hqm
        rcases List.mem_append.mp hqm with hold | hnew
        · exact hq q hold
        · rw [List.mem_singleton.mp hnew]; exact hbatch
      · simp [hlen]
      · simp
      · intro i hi
        simp only [List.length_append, List.length_singleton] at hi
        rw [List.getD_append _ _ _ _ (by omega)]
        have hmem : st.respSizes.getD i 0 ∈ st.respSizes := by
          rw [List.getD_eq_getElem _ _ (by omega)]
          exact List.getElem_mem _
        exact h10 _ hmem
      · simpa [List.getLastD_concat] using hterm
      · simpa [HashIterator.reset] using hfold
      · simp [List.sum_append, hsig]
    · rename_i hcont
      refine ih _ res ?_ ?_ ?_ ?_ ?_ ?_ h
      · show -1 ≤ nx.2.hashPtr
        have hp2 : nx.2.hashPtr =
            st.hashes.hashPtr + (MAX_SIGS_PER_DISCOVERY_ITERATION : Int) := by
          rw [hnx]; simp
        omega
      · intro q hqm
        rcases List.mem_append.mp hqm with hold | hnew
        · exact hq q hold
        · rw [List.mem_singleton.mp hnew]; exact hbatch
      · simp [hlen]
      · intro x hxm
        rcases List.mem_append.mp hxm with hold | hnew
        · exact h10 x hold
        · rw [List.mem_singleton.mp hnew]
          simpa using hcont
      · exact hfold
      · simp only [List.length_append]
        rw [hsig, List.sum_append]
        simp

/-- C2: whenever `_discoverSignatures` terminates, every batch queried the
collaborator with exactly 10 hashes; every batch before the last returned
exactly 10 events (so another batch of 10 was requested); the last batch
did not return exactly 10 (fewer than 10 therefore terminates discovery
after that batch); the generator pointer ends rewound to the highest chain
index confirmed across all batches (-1 when nothing matched); and the
returned event list accumulates every event of every batch. -/
theorem discovery_batching (cid : Nat) (d key : List Nat)
    (query : List (List Nat) → List RawEvent) (fuel : Nat) (res : DiscoverResult)
    (h : discoverSignatures cid d key query fuel = some res) :
    (∀ q ∈ res.queryLog, q.length = MAX_SIGS_PER_DISCOVERY_ITERATION) ∧
    res.respSizes.length = res.queryLog.length ∧
    res.respSizes ≠ [] ∧
    (∀ i, i + 1 < res.respSizes.length →
      res.respSizes.getD i 0 = MAX_SIGS_PER_DISCOVERY_ITERATION) ∧
    res.respSizes.getLastD 0 ≠ MAX_SIGS_PER_DISCOVERY_ITERATION ∧
    res.hashes.hashPtr = res.matchLog.foldl (fun acc i => max acc i) (-1) ∧
    res.signatures.length = res.respSizes.sum := by
  refine discoverNext_props query key fuel _ res ?_ ?_ ?_ ?_ ?_ ?_ h <;>
    simp [freshIterator]

/-- An external query collaborator that never finds any event. -/
def queryNone : List (List Nat) → List RawEvent := fun _ => []

/-- The result of a discovery run against `queryNone`. -/
def discRes0 : DiscoverResult :=
  (discoverSignatures 1 docHash0 [] queryNone 1).getD default

/-- Witness for C2: with a collaborator returning fewer than 10 matches on
the first call, discovery terminates with the pointer at -1 (the fold over
an empty match log). -/
theorem discovery_batching_witness :
    discoverSignatures 1 docHash0 [] queryNone 1 = some discRes0 ∧
    discRes0.respSizes.getLastD 0 ≠ MAX_SIGS_PER_DISCOVERY_ITERATION ∧
    discRes0.hashes.hashPtr = discRes0.matchLog.foldl (fun acc i => max acc i) (-1) ∧
    discRes0.signatures.length = discRes0.respSizes.sum := by
  have h : discoverSignatures 1 docHash0 [] queryNone 1 = some discRes0 := rfl
  have hp := discovery_batching 1 docHash0 [] queryNone 1 discRes0 h
  exact ⟨h, hp.2.2.2.2.1, hp.2.2.2.2.2.1, hp.2.2.2.2.2.2⟩

/-- The hex ids of the first discovery batch. -/
def firstBatchIds (d : List Nat) (cid : Nat) : List (List Nat) :=
  ((freshIterator d cid).next MAX_SIGS_PER_DISCOVERY_ITERATION).1.map (buf2hex true)

/-- C9: the discovery continuation test is exact equality with the batch
size — if the collaborator returns more than 10 entries for the first batch
of 10 hashes (superset noise), discovery terminates after that single
batch, exactly as if fewer than 10 had been returned. -/
theorem discovery_superset_terminates (cid : Nat) (d key : List Nat)
    (query : List (List Nat) → List RawEvent) (fuel : Nat)
    (h : MAX_SIGS_PER_DISCOVERY_ITERATION < (query (firstBatchIds d cid)).length) :
    ∃ res, discoverSignatures cid d key query (fuel + 1) = some res ∧
      res.queryLog = [firstBatchIds d cid] ∧
      res.respSizes = [(query (firstBatchIds d cid)).length] := by
  simp only [discoverSignatures, discoverNext]
  have hne : ¬((query (firstBatchIds d cid)).map (decodeSignatureEvent key)).length =
      MAX_SIGS_PER_DISCOVERY_ITERATION := by
    simp only [List.length_map]
    omega
  rw [if_pos (by simpa [firstBatchIds] using hne)]
  refine ⟨_, rfl, by simp [firstBatchIds], by simp [firstBatchIds]⟩

/-- An external query collaborator that always returns 11 records. -/
def querySuperset : List (List Nat) → List RawEvent :=
  fun _ => List.replicate 11 .unparseable

/-- The result of a discovery run against `querySuperset`. -/
def discRes1 : DiscoverResult :=
  (discoverSignatures 1 docHash0 [] querySuperset 1).getD default

/-- Witness for C9 with an 11-record response. -/
theorem discovery_superset_terminates_witness :
    MAX_SIGS_PER_DISCOVERY_ITERATION <
      (querySuperset (firstBatchIds docHash0 1)).length ∧
    discoverSignatures 1 docHash0 [] querySuperset 1 = some discRes1 ∧
    discRes1.queryLog = [firstBatchIds docHash0 1] ∧
    discRes1.respSizes = [(querySuperset (firstBatchIds docHash0 1)).length] := by
  have h0 : MAX_SIGS_PER_DISCOVERY_ITERATION <
      (querySuperset (firstBatchIds docHash0 1)).length := by decide
  obtain ⟨res, hres, hq, hr⟩ :=
    discovery_superset_terminates 1 docHash0 [] querySuperset 0 h0
  have hre : discRes1 = res := by
    show (discoverSignatures 1 docHash0 [] querySuperset 1).getD default = res
    rw [hres]
    rfl
  exact ⟨h0, hre ▸ hres, hre ▸ hq, hre ▸ hr⟩

/-! ## Hex and unicode round-trip lemmas for the codec -/

/-- A code unit that is a digit or a lowercase hex letter: the alphabet
`buf2hex` and `toString(16)` produce. -/
def isLowerHexCode (c : Nat) : Prop := (48 ≤ c ∧ c ≤ 57) ∨ (97 ≤ c ∧ c ≤ 102)

theorem hexVal_hexDigitCode (d : Nat) (h : d < 16) : hexVal (hexDigitCode d) = some d := by
  interval_cases d <;> rfl

theorem hexVal_lt (c v : Nat) (h : hexVal c = some v) : v < 16 := by
  unfold hexVal at h
  split at h
  · rename_i hc; injection h with h'; omega
  · split at h
    · rename_i hc; injection h with h'; omega
    · split at h
      · rename_i hc; injection h with h'; omega
      · cases h

theorem isLowerHexCode_hexDigitCode (d : Nat) (h : d < 16) :
    isLowerHexCode (hexDigitCode d) := by
  unfold hexDigitCode isLowerHexCode
  split <;> omega

theorem isLowerHexCode_ne_120 (c : Nat) (h : isLowerHexCode c) : c ≠ 120 := by
  unfold isLowerHexCode at h
  omega

theorem isLowerHexCode_hexVal (c : Nat) (h : isLowerHexCode c) :
    ∃ v, hexVal c = some v ∧ v < 16 := by
  rcases h with ⟨h1, h2⟩ | ⟨h1, h2⟩
  · exact ⟨c - 48, by rw [hexVal, if_pos ⟨h1, h2⟩], by omega⟩
  · refine ⟨c - 87, ?_, by omega⟩
    rw [hexVal, if_neg (by omega), if_pos ⟨h1, h2⟩]

theorem hexDigitCode_hexVal (c v : Nat) (hl : isLowerHexCode c) (h : hexVal c = some v) :
    hexDigitCode v = c := by
  rcases hl with ⟨h1, h2⟩ | ⟨h1, h2⟩
  · rw [hexVal, if_pos ⟨h1, h2⟩] at h
    injection h with h'
    unfold hexDigitCode
    rw [if_pos (by omega)]
    omega
  · rw [hexVal, if_neg (by omega), if_pos ⟨h1, h2⟩] at h
    injection h with h'
    unfold hexDigitCode
    rw [if_neg (by omega)]
    omega

theorem removeFirst0x_id : ∀ l : List Nat, (∀ c ∈ l, c ≠ 120) → removeFirst0x l = l
  | [], _ => rfl
  | [_], _ => rfl
  | a :: b :: rest, h => by
    have hb : b ≠ 120 := h b (by simp)
    unfold removeFirst0x
    rw [if_neg (by rintro ⟨-, hb'⟩; exact hb hb')]
    rw [removeFirst0x_id (b :: rest) (fun c hc => h c (by simp only [List.mem_cons] at hc ⊢; tauto))]

theorem jsParseIntHex_pair (a b x y : Nat) (ha : hexVal a = some x) (hb : hexVal b = some y) :
    jsParseIntHex [a, b] = some (16 * x + y) := by
  simp [jsParseIntHex, parseHexLoop, ha, hb]

theorem jsParseIntHex_byteToHex (b : Nat) (h : b < 256) :
    jsParseIntHex (byteToHex b) = some b := by
  unfold byteToHex
  rw [jsParseIntHex_pair _ _ _ _ (hexVal_hexDigitCode _ (by omega))
    (hexVal_hexDigitCode _ (by omega))]
  congr 1
  omega

theorem byteToHex_lower (b : Nat) : ∀ c ∈ byteToHex b, isLowerHexCode c := by
  intro c hc
  unfold byteToHex at hc
  simp only [List.mem_cons, List.not_mem_nil, or_false] at hc
  rcases hc with rfl | rfl <;> exact isLowerHexCode_hexDigitCode _ (by omega)

theorem buf2hex_lower (l : List Nat) : ∀ c ∈ buf2hex false l, isLowerHexCode c := by
  intro c hc
  unfold buf2hex at hc
  simp only [Bool.false_eq_true, if_false, List.nil_append, List.mem_flatten,
    List.mem_map] at hc
  obtain ⟨p, ⟨b, -, rfl⟩, hcp⟩ := hc
  exact byteToHex_lower b c hcp

theorem hexPairs_flatten_byteToHex :
    ∀ l : List Nat, hexPairs ((l.map byteToHex).flatten) = l.map byteToHex
  | [] => rfl
  | b :: rest => by
    simp only [List.map_cons, List.flatten_cons, byteToHex]
    rw [List.cons_append, List.cons_append, List.nil_append, hexPairs]
    rw [hexPairs_flatten_byteToHex rest]

/-- `hexToBuf` inverts `buf2hex` on genuine byte lists. -/
theorem hexToBuf_buf2hex (l : List Nat) (h : ∀ b ∈ l, b < 256) :
    hexToBuf (buf2hex false l) = l := by
  have h0 : buf2hex false l = (l.map byteToHex).flatten := by
    simp [buf2hex]
  rw [h0]
  unfold hexToBuf
  rw [removeFirst0x_id _ (fun c hc => isLowerHexCode_ne_120 c (by
    have := buf2hex_lower l c
    rw [h0] at this
    exact this hc))]
  rw [hexPairs_flatten_byteToHex]
  rw [List.map_map]
  conv_rhs => rw [← List.map_id l]
  apply List.map_congr_left
  intro b hb
  simp [Function.comp, jsParseIntHex_byteToHex b (h b hb)]

theorem pairs_reassemble :
    ∀ s : List Nat, s.length % 2 = 0 → (∀ c ∈ s, isLowerHexCode c) →
      ((hexPairs s).map (fun p => byteToHex ((jsParseIntHex p).getD 0))).flatten = s
  | [], _, _ => rfl
  | [_], h, _ => by simp at h
  | a :: b :: rest, h, hc => by
    obtain ⟨x, hx, hx16⟩ := isLowerHexCode_hexVal a (hc a (by simp))
    obtain ⟨y, hy, hy16⟩ := isLowerHexCode_hexVal b (hc b (by simp))
    rw [hexPairs]
    simp only [List.map_cons, List.flatten_cons]
    rw [jsParseIntHex_pair a b x y hx hy]
    have hbyte : byteToHex (16 * x + y) = [a, b] := by
      unfold byteToHex
      have e1 : (16 * x + y) / 16 % 16 = x := by omega
      have e2 : (16 * x + y) % 16 = y := by omega
      rw [e1, e2, hexDigitCode_hexVal a x (hc a (by simp)) hx,
        hexDigitCode_hexVal b y (hc b (by simp)) hy]
    rw [pairs_reassemble rest (by simp only [List.length_cons] at h; omega)
      (fun c hcm => hc c (by simp only [List.mem_cons] at hcm ⊢; tauto))]
    simp [hbyte]

/-- `buf2hex` inverts `hexToBuf` on even-length lowercase hex strings. -/
theorem buf2hex_hexToBuf (s : List Nat) (h2 : s.length % 2 = 0)
    (hl : ∀ c ∈ s, isLowerHexCode c) : buf2hex false (hexToBuf s) = s := by
  have h0 : buf2hex false (hexToBuf s) = ((hexToBuf s).map byteToHex).flatten := by
    simp [buf2hex]
  rw [h0]
  unfold hexToBuf
  rw [removeFirst0x_id s (fun c hcm => isLowerHexCode_ne_120 c (hl c hcm))]
  rw [List.map_map]
  have hcomp : (byteToHex ∘ fun p => (jsParseIntHex p).getD 0)
      = fun p => byteToHex ((jsParseIntHex p).getD 0) := rfl
  rw [hcomp]
  exact pairs_reassemble s h2 hl

theorem jsParseIntHex_quad (a b c d x y z w : Nat)
    (ha : hexVal a = some x) (hb : hexVal b = some y)
    (hc : hexVal c = some z) (hd : hexVal d = some w) :
    jsParseIntHex [a, b, c, d] = some (((x * 16 + y) * 16 + z) * 16 + w) := by
  simp [jsParseIntHex, parseHexLoop, ha, hb, hc, hd]
  ring

theorem jsParseIntHex_unit4hex (u : Nat) (h : u < 65536) :
    jsParseIntHex (unit4hex u) = some u := by
  unfold unit4hex
  rw [jsParseIntHex_quad _ _ _ _ _ _ _ _ (hexVal_hexDigitCode _ (by omega))
    (hexVal_hexDigitCode _ (by omega)) (hexVal_hexDigitCode _ (by omega))
    (hexVal_hexDigitCode _ (by omega))]
  congr 1
  omega

theorem unit4hex_lower (u : Nat) : ∀ c ∈ unit4hex u, isLowerHexCode c := by
  intro c hc
  unfold unit4hex at hc
  simp only [List.mem_cons, List.not_mem_nil, or_false] at hc
  rcases hc with rfl | rfl | rfl | rfl <;> exact isLowerHexCode_hexDigitCode _ (by omega)

theorem unicodeStrToHex_lower (s : List Nat) :
    ∀ c ∈ unicodeStrToHex s, isLowerHexCode c := by
  intro c hc
  unfold unicodeStrToHex at hc
  simp only [List.mem_flatten, List.mem_map] at hc
  obtain ⟨p, ⟨u, -, rfl⟩, hcp⟩ := hc
  exact unit4hex_lower u c hcp

theorem unicodeStrToHex_even :
    ∀ s : List Nat, (unicodeStrToHex s).length % 2 = 0
  | [] => rfl
  | u :: rest => by
    have ih := unicodeStrToHex_even rest
    simp only [unicodeStrToHex, List.map_cons, List.flatten_cons, List.length_append,
      unit4hex, List.length_cons, List.length_nil] at ih ⊢
    omega

theorem hexQuads_flatten_unit4hex :
    ∀ l : List Nat, hexQuads ((l.map unit4hex).flatten) = l.map unit4hex
  | [] => rfl
  | u :: rest => by
    simp only [List.map_cons, List.flatten_cons, unit4hex]
    rw [List.cons_append, List.cons_append, List.cons_append, List.cons_append,
      List.nil_append, hexQuads]
    rw [hexQuads_flatten_unit4hex rest]

/-- `unicodeHexToStr` inverts `unicodeStrToHex` on UTF-16 code-unit
lists. -/
theorem unicode_roundtrip (s : List Nat) (h : ∀ u ∈ s, u < 65536) :
    unicodeHexToStr (unicodeStrToHex s) = s := by
  unfold unicodeHexToStr
  rw [removeFirst0x_id _ (fun c hc => isLowerHexCode_ne_120 c (unicodeStrToHex_lower s c hc))]
  unfold unicodeStrToHex
  rw [hexQuads_flatten_unit4hex]
  rw [List.map_map]
  conv_rhs => rw [← List.map_id s]
  apply List.map_congr_left
  intro u hu
  simp [Function.comp, jsParseIntHex_unit4hex u (h u hu)]

/-! ## Crypto-model lemmas -/

theorem compressWord_length (st : List Nat) (kw : Nat × Nat) (h : st.length = 8) :
    (compressWord st kw).length = 8 := by
  unfold compressWord
  split
  · rfl
  · exact h

theorem foldl_compressWord_length (l : List (Nat × Nat)) :
    ∀ st : List Nat, st.length = 8 → (l.foldl compressWord st).length = 8 := by
  induction l with
  | nil => intro st h; exact h
  | cons a t ih =>
    intro st h
    simp only [List.foldl_cons]
    exact ih _ (compressWord_length st a h)

theorem compressBlock_length (st block : List Nat) (h : st.length = 8) :
    (compressBlock st block).length = 8 := by
  unfold compressBlock
  have h1 := foldl_compressWord_length (sha256K.zip (block ++ scheduleRounds 48 block)) st h
  simp [List.length_zip, h, h1]

theorem processWordsAux_length :
    ∀ (fuel : Nat) (ws st : List Nat), st.length = 8 →
      (processWordsAux fuel st ws).length = 8
  | 0, _, _, h => h
  | fuel + 1, ws, st, h => by
    unfold processWordsAux
    split
    · exact h
    · exact processWordsAux_length fuel (ws.drop 16) _ (compressBlock_length st _ h)

theorem sha256_length (m : List Nat) : (sha256 m).length = 32 := by
  unfold sha256
  rw [List.length_flatten, List.map_map]
  have hf : (processWordsAux (bytesToWords (padMessage m)).length sha256Init
      (bytesToWords (padMessage m))).length = 8 :=
    processWordsAux_length _ _ _ rfl
  have hc : (List.length ∘ fun w : Nat =>
      [(w >>> 24) % 256, (w >>> 16) % 256, (w >>> 8) % 256, w % 256]) = fun _ => 4 := by
    funext w
    rfl
  rw [hc]
  rw [List.map_const']
  rw [List.sum_replicate, hf]
  rfl

theorem sha256_bytes_lt (m : List Nat) : ∀ b ∈ sha256 m, b < 256 := by
  intro b hb
  unfold sha256 at hb
  simp only [List.mem_flatten, List.mem_map] at hb
  obtain ⟨p, ⟨w, -, rfl⟩, hbp⟩ := hb
  simp only [List.mem_cons, List.not_mem_nil, or_false] at hbp
  rcases hbp with rfl | rfl | rfl | rfl <;> omega

theorem map_getD_range (l : List Nat) :
    (List.range l.length).map (fun i => l.getD i 0) = l := by
  apply List.ext_getElem
  · simp
  · intro i h1 h2
    simp only [List.getElem_map, List.getElem_range]
    rw [List.getD_eq_getElem l 0 h2]

/-- The modelled cipher decrypts its own ciphertexts. -/
theorem gcm_roundtrip (key nonce pt : List Nat) :
    gcmDecrypt key nonce (gcmEncrypt key nonce pt) = some pt := by
  unfold gcmEncrypt gcmDecrypt
  set ct := (List.range pt.length).map (fun i => pt.getD i 0 ^^^ keystreamByte key nonce i)
    with hctdef
  have hctl : ct.length = pt.length := by rw [hctdef]; simp
  have htagl : ((sha256 (key ++ nonce ++ ct)).take 16).length = 16 := by
    simp [sha256_length]
  rw [if_neg (by simp only [List.length_append, htagl]; omega)]
  have hsub : (ct ++ (sha256 (key ++ nonce ++ ct)).take 16).length - 16 = ct.length := by
    simp only [List.length_append, htagl]
    omega
  rw [hsub, List.take_left, List.drop_left, if_pos rfl]
  congr 1
  rw [hctl]
  have hpt : ∀ i, i < pt.length → ct.getD i 0 = pt.getD i 0 ^^^ keystreamByte key nonce i := by
    intro i hi
    rw [hctdef, List.getD_eq_getElem _ 0 (by simpa using hi)]
    simp
  calc (List.range pt.length).map (fun i => ct.getD i 0 ^^^ keystreamByte key nonce i)
      = (List.range pt.length).map (fun i => pt.getD i 0) := by
        apply List.map_congr_left
        intro i hi
        rw [hpt i (by simpa using hi)]
        rw [Nat.xor_assoc, Nat.xor_self, Nat.xor_zero]
    _ = pt := map_getD_range pt

theorem hexPairs_short :
    ∀ l : List Nat, ∀ p ∈ hexPairs l, p.length ≤ 2
  | [], p, hp => by simp [hexPairs] at hp
  | [a], p, hp => by
    simp only [hexPairs, List.mem_singleton] at hp
    simp [hp]
  | a :: b :: rest, p, hp => by
    simp only [hexPairs, List.mem_cons] at hp
    rcases hp with rfl | hp
    · simp
    · exact hexPairs_short rest p hp

theorem jsParseIntHex_getD_lt (p : List Nat) (h : p.length ≤ 2) :
    (jsParseIntHex p).getD 0 < 256 := by
  match p with
  | [] => simp [jsParseIntHex]
  | [a] =>
    cases hv : hexVal a with
    | none => simp [jsParseIntHex, hv]
    | some v =>
      have := hexVal_lt a v hv
      simp [jsParseIntHex, parseHexLoop, hv]
      omega
  | [a, b] =>
    cases hva : hexVal a with
    | none => simp [jsParseIntHex, hva]
    | some x =>
      cases hvb : hexVal b with
      | none =>
        have := hexVal_lt a x hva
        simp [jsParseIntHex, parseHexLoop, hva, hvb]
        omega
      | some y =>
        have := hexVal_lt a x hva
        have := hexVal_lt b y hvb
        simp [jsParseIntHex, parseHexLoop, hva, hvb]
        omega
  | _ :: _ :: _ :: _ => simp at h

theorem hexToBuf_lt (s : List Nat) : ∀ b ∈ hexToBuf s, b < 256 := by
  intro b hb
  unfold hexToBuf at hb
  simp only [List.mem_map] at hb
  obtain ⟨p, hp, rfl⟩ := hb
  exact jsParseIntHex_getD_lt p (hexPairs_short _ p hp)

theorem gcmEncrypt_lt (key nonce pt : List Nat) (hpt : ∀ b ∈ pt, b < 256) :
    ∀ b ∈ gcmEncrypt key nonce pt, b < 256 := by
  intro b hb
  unfold gcmEncrypt at hb
  rcases List.mem_append.mp hb with hb | hb
  · simp only [List.mem_map, List.mem_range] at hb
    obtain ⟨i, hi, rfl⟩ := hb
    have h1 : pt.getD i 0 < 256 := by
      rw [List.getD_eq_getElem pt 0 hi]
      exact hpt _ (List.getElem_mem _)
    have h2 : keystreamByte key nonce i < 256 := by
      unfold keystreamByte
      omega
    have := Nat.xor_lt_two_pow (n := 8) (by simpa using h1) (by simpa using h2)
    simpa using this
  · exact sha256_bytes_lt _ b (List.mem_of_mem_take hb)

/-- The EncryptionKey hex wrappers invert each other (up to the hex
normalization of `hexToBuf`/`buf2hex`). -/
theorem decryptHex_encryptHex (key nonce dataHex : List Nat)
    (hnl : nonce.length = 12) (hnb : ∀ b ∈ nonce, b < 256) :
    decryptHex key (encryptHex key nonce dataHex) =
      some (buf2hex false (hexToBuf dataHex)) := by
  unfold encryptHex decryptHex
  rw [hexToBuf_buf2hex _ (by
    intro b hb
    rcases List.mem_append.mp hb with hb | hb
    · exact hnb b hb
    · exact gcmEncrypt_lt key nonce _ (hexToBuf_lt dataHex) b hb)]
  have h12 : (12 : Nat) = nonce.length := hnl.symm
  rw [h12]
  simp only [List.take_left, List.drop_left, gcm_roundtrip]
  rfl

/-! ## C8: the codec round trip (corrected) -/

theorem buf2hex_ne_nil (l : List Nat) (h : l ≠ []) : buf2hex false l ≠ [] := by
  cases l with
  | nil => exact absurd rfl h
  | cons b t => simp [buf2hex, byteToHex]

theorem isHexString_shape (s : List Nat) (h : isHexString s = true) :
    s = 48 :: 120 :: s.drop 2 := by
  unfold isHexString at h
  split at h
  · rename_i rest
    rfl
  · exact absurd h (by simp)

/-- Decoding a payload of the exact shape the encoder emits: version `00`,
one type byte, then the data hex. -/
theorem decodeData_payload (ty : Nat) (rest key : List Nat) (hty : ty < 256) :
    decodeData (some (js "0x" ++ SIG_DATA_VERSION ++ byteToHex ty ++ rest)) key =
      decodeSwitch (js "00")
        (if Nat.land ty SIG_DATA_ENCRYPTED_FLAG ≠ 0 then true else false)
        (Nat.land ty 4294967167)
        (if (if Nat.land ty SIG_DATA_ENCRYPTED_FLAG ≠ 0 then true else false) = true ∧ rest ≠ []
          then (decryptHex key rest).getD [] else rest) := by
  have hp : js "0x" ++ SIG_DATA_VERSION ++ byteToHex ty ++ rest
      = 48 :: 120 :: 48 :: 48 :: hexDigitCode (ty / 16 % 16) :: hexDigitCode (ty % 16) :: rest :=
    rfl
  rw [hp]
  simp only [decodeData]
  rw [if_neg (by
    rintro (hx | hx)
    · cases hx
    · simp [js] at hx)]
  rw [if_neg (by simp only [List.length_cons]; omega)]
  simp only [List.drop_succ_cons, List.drop_zero, List.take_succ_cons, List.take_zero]
  have hparse : jsParseIntHex [hexDigitCode (ty / 16 % 16), hexDigitCode (ty % 16)] = some ty :=
    jsParseIntHex_byteToHex ty hty
  simp only [hparse]
  rfl

/-- The string content of the sign data, empty when absent or numeric. -/
def contentStr (a : SignData) : List Nat :=
  match a.content with
  | some (.str s) => s
  | _ => []

/-- The amended support predicate of the round-trip claim: a string
annotation with non-empty content (any UTF-16 code units), or a hex
annotation passing the encoder's own `isHexString` validation whose digits
— when the annotation is to be encrypted — are lowercase and even in count
(whole bytes); the encrypted flag must be absent or boolean. -/
def supportedRoundTrip (a : SignData) : Prop :=
  a.encrypted.invalidFlag = false ∧
  match a.type, a.content with
  | some t, some (.str s) =>
    (t = js "string" ∧ s ≠ [] ∧ ∀ u ∈ s, u < 65536) ∨
    (t = js "hex" ∧ isHexString s = true ∧ s ≠ js "0x" ∧
      (a.encrypted.truthy = true →
        (∀ c ∈ s.drop 2, isLowerHexCode c) ∧ (s.drop 2).length % 2 = 0))
  | _, _ => False

/-- C8 (amended): for every supported annotation — type `string` with any
non-empty content, or type `hex` with valid hex content that is lowercase
and byte-aligned whenever encryption is requested — decoding the result of
encoding with the same key yields an annotation equal to the original in
type and content (and encrypted flag), with the random nonce excluded from
the comparison in the encrypted case. -/
theorem codec_roundtrip_amended (a : SignData) (key nonce : List Nat)
    (hnl : nonce.length = 12) (hnb : ∀ b ∈ nonce, b < 256)
    (hsup : supportedRoundTrip a) :
    ∃ payload, encodeData a key nonce = .ok payload ∧
      (decodeData (some payload) key).type = a.type.getD [] ∧
      (decodeData (some payload) key).content = some (contentStr a) ∧
      (decodeData (some payload) key).encrypted = some a.encrypted.truthy := by
  obtain ⟨ty, fl, co⟩ := a
  obtain ⟨hflag, hrest⟩ := hsup
  have hnonceNe : nonce ≠ [] := by
    intro h0
    rw [h0] at hnl
    simp at hnl
  cases ty with
  | none => cases co with
    | none => exact hrest.elim
    | some c => cases c with
      | str s => exact hrest.elim
      | num n => exact hrest.elim
  | some t => cases co with
    | none => exact hrest.elim
    | some c => cases c with
      | num n => exact hrest.elim
      | str s =>
        simp only at hrest
        rcases hrest with ⟨hts, hsne, hunits⟩ | ⟨hth, hhex, hs0x, hlow⟩
        · -- string annotation
          subst hts
          cases htr : fl.truthy with
          | false =>
            have hdec : decodeData
                (some (js "0x" ++ SIG_DATA_VERSION ++ byteToHex 0 ++ unicodeStrToHex s)) key
                = ⟨js "string", some (unicodeHexToStr (unicodeStrToHex s)),
                    some (js "00"), some false⟩ := by
              rw [decodeData_payload 0 _ key (by omega)]
              rfl
            refine ⟨js "0x" ++ SIG_DATA_VERSION ++ byteToHex 0 ++ unicodeStrToHex s,
              ?_, ?_, ?_, ?_⟩
            · simp [encodeData, hsne, hflag, htr, SIG_DATA_TYPE_STRING]
            · rw [hdec]
              rfl
            · rw [hdec]
              simp [contentStr, unicode_roundtrip s hunits]
            · rw [hdec]
          | true =>
            have hne : encryptHex key nonce (unicodeStrToHex s) ≠ [] := by
              unfold encryptHex
              exact buf2hex_ne_nil _ (by
                intro hx
                exact hnonceNe (List.append_eq_nil.mp hx).1)
            have hdecr : (decryptHex key (encryptHex key nonce (unicodeStrToHex s))).getD []
                = unicodeStrToHex s := by
              rw [decryptHex_encryptHex key nonce _ hnl hnb]
              simp only [Option.getD_some]
              rw [buf2hex_hexToBuf _ (unicodeStrToHex_even s) (unicodeStrToHex_lower s)]
            have hdec : decodeData (some (js "0x" ++ SIG_DATA_VERSION ++ byteToHex 128 ++
                  encryptHex key nonce (unicodeStrToHex s))) key
                = ⟨js "string", some (unicodeHexToStr (unicodeStrToHex s)),
                    some (js "00"), some true⟩ := by
              rw [decodeData_payload 128 _ key (by omega)]
              rw [show (if Nat.land 128 SIG_DATA_ENCRYPTED_FLAG ≠ 0 then true else false)
                = true from by decide]
              rw [if_pos ⟨rfl, hne⟩, hdecr]
              rfl
            refine ⟨js "0x" ++ SIG_DATA_VERSION ++ byteToHex 128 ++
              encryptHex key nonce (unicodeStrToHex s), ?_, ?_, ?_, ?_⟩
            · simp [encodeData, hsne, hflag, htr, SIG_DATA_TYPE_STRING,
                SIG_DATA_ENCRYPTED_FLAG]
            · rw [hdec]
              rfl
            · rw [hdec]
              simp [contentStr, unicode_roundtrip s hunits]
            · rw [hdec]
        · -- hex annotation
          subst hth
          have hshape := isHexString_shape s hhex
          have hsne2 : s ≠ [] := by rw [hshape]; simp
          have htake : s.take 2 = js "0x" := by
            conv_lhs => rw [hshape]
            rfl
          have hneq : ¬((some (js "hex") : Option (List Nat)) = some (js "string")) := by
            decide
          have hjoin : js "0x" ++ s.drop 2 = s := by
            conv_rhs => rw [hshape]
            rfl
          cases htr : fl.truthy with
          | false =>
            have hdec : decodeData
                (some (js "0x" ++ SIG_DATA_VERSION ++ byteToHex 1 ++ s.drop 2)) key
                = ⟨js "hex", some (js "0x" ++ s.drop 2), some (js "00"), some false⟩ := by
              rw [decodeData_payload 1 _ key (by omega)]
              rfl
            refine ⟨js "0x" ++ SIG_DATA_VERSION ++ byteToHex 1 ++ s.drop 2, ?_, ?_, ?_, ?_⟩
            · simp [encodeData, hsne2, hflag, htr, hneq, hhex, htake, SIG_DATA_TYPE_BYTES]
            · rw [hdec]
              rfl
            · rw [hdec, hjoin]
              simp [contentStr]
            · rw [hdec]
          | true =>
            obtain ⟨hlowc, heven⟩ := hlow htr
            have hne : encryptHex key nonce (s.drop 2) ≠ [] := by
              unfold encryptHex
              exact buf2hex_ne_nil _ (by
                intro hx
                exact hnonceNe (List.append_eq_nil.mp hx).1)
            have hdecr : (decryptHex key (encryptHex key nonce (s.drop 2))).getD []
                = s.drop 2 := by
              rw [decryptHex_encryptHex key nonce _ hnl hnb]
              simp only [Option.getD_some]
              rw [buf2hex_hexToBuf _ heven hlowc]
            have hdec : decodeData (some (js "0x" ++ SIG_DATA_VERSION ++ byteToHex 129 ++
                  encryptHex key nonce (s.drop 2))) key
                = ⟨js "hex", some (js "0x" ++ s.drop 2), some (js "00"), some true⟩ := by
              rw [decodeData_payload 129 _ key (by omega)]
              rw [show (if Nat.land 129 SIG_DATA_ENCRYPTED_FLAG ≠ 0 then true else false)
                = true from by decide]
              rw [if_pos ⟨rfl, hne⟩, hdecr]
              rfl
            refine ⟨js "0x" ++ SIG_DATA_VERSION ++ byteToHex 129 ++
              encryptHex key nonce (s.drop 2), ?_, ?_, ?_, ?_⟩
            · simp [encodeData, hsne2, hflag, htr, hneq, hhex, htake,
                SIG_DATA_TYPE_BYTES, SIG_DATA_ENCRYPTED_FLAG]
            · rw [hdec]
              rfl
            · rw [hdec, hjoin]
              simp [contentStr]
            · rw [hdec]

/-- The encoder's payload for the counterexample annotation. -/
def cePayload : List Nat :=
  match encodeData ⟨some (js "hex"), .bool true, some (.str (js "0x123"))⟩ key0 nonce0 with
  | .ok p => p
  | .error _ => []

/-- C8 is refuted as stated: the annotation `{type: 'hex', encrypted: true,
content: '0x123'}` is supported by the encoder (its content passes
`isHexString`), but decoding its encoding yields content `0x1203` — the
odd-length hex digits are zero-padded byte-wise by `hexToBuf` before
encryption, so the decoded content differs from the original. -/
theorem codec_roundtrip_refuted :
    encodeData ⟨some (js "hex"), .bool true, some (.str (js "0x123"))⟩ key0 nonce0
      = .ok cePayload ∧
    isHexString (js "0x123") = true ∧
    (decodeData (some cePayload) key0).type = js "hex" ∧
    (decodeData (some cePayload) key0).content = some (js "0x1203") ∧
    js "0x1203" ≠ js "0x123" := by
  refine ⟨rfl, by decide, by decide, by decide, by decide⟩

/-- The supported annotation of the round-trip witness. -/
def rtData : SignData := ⟨some (js "string"), .bool true, some (.str (js "hi"))⟩

/-- The encoder's payload for the round-trip witness. -/
def rtPayload : List Nat :=
  match encodeData rtData key0 nonce0 with
  | .ok p => p
  | .error _ => []

/-- Witness for C8: an encrypted string annotation round trips. -/
theorem codec_roundtrip_amended_witness :
    (nonce0.length = 12 ∧ (∀ b ∈ nonce0, b < 256) ∧ supportedRoundTrip rtData) ∧
    encodeData rtData key0 nonce0 = .ok rtPayload ∧
    (decodeData (some rtPayload) key0).type = js "string" ∧
    (decodeData (some rtPayload) key0).content = some (js "hi") ∧
    (decodeData (some rtPayload) key0).encrypted = some true := by
  have hsup : supportedRoundTrip rtData := ⟨rfl, Or.inl ⟨rfl, by decide, by decide⟩⟩
  obtain ⟨p, hp, h1, h2, h3⟩ :=
    codec_roundtrip_amended rtData key0 nonce0 (by decide) (by decide) hsup
  have hpe : p = rtPayload := by
    have hp0 : encodeData rtData key0 nonce0 = .ok rtPayload := rfl
    rw [hp] at hp0
    injection hp0
  subst hpe
  exact ⟨⟨by decide, by decide, hsup⟩, hp, by simpa using h1, by simpa using h2,
    by simpa using h3⟩

end OpenSig
